import Mathlib

/-!
Verification of the GooGet package-manager client against its specification.

This file shallowly embeds the parts of the GooGet sources that the checked
claims are about:

* the repo/package model of `goolib` and `client` (client.go): `PackageState`,
  `Match`, `RepoMap`, `latest`, `FindRepoLatest`, repo-index `decode`,
  `unmarshalRepoPackages` and its HTTP/GCS fetchers;
* the SQLite state store of `googetdb` (googetdb.go): `WriteStateToDB`,
  `addPkg`, `FetchPkg`, `RemovePkg`, modelled over an explicit table;
* `verify.RunVerifyCommand` (verify/verify.go), with all external effects
  (file system, HTTP, script execution) supplied as oracles.

Machine maps are embedded as association lists in iteration order (Go map
iteration order is unspecified; quantifying over the list covers every
admissible order), fallible operations return `Except`, and byte-level
concerns (JSON syntax, gzip, content-type sniffing) are abstracted to the
already-tokenised values they denote.
-/

open Batteries

/-! ## Version model

The version parser and comparator live in `goolib` (goolib.Compare,
goolib.ParseVersion), which is not among the embedded sources; only its
callers are.  It is therefore modelled from the spec (§3, §4.A):
versions have the form `N(.N)*(-tag)?(@R)?`; comparison is lexicographic
over the numeric segments with missing segments read as 0, a present
pre-release tag is less than the same version without one, and remaining
ties are broken by the numeric revision. -/

/-- Modelled from the spec: the parsed form of a `goolib` version
`N(.N)*(-tag)?(@R)?` — numeric segments, optional pre-release tag and
numeric revision (0 when absent). -/
structure GooVersion where
  seg : List Nat
  tag : Option String
  rev : Nat
deriving DecidableEq

/-- Split a character list at every occurrence of `c` (the pieces do not
contain `c`; n separators give n+1 pieces). -/
def splitOnChar (c : Char) : List Char → List (List Char)
  | [] => [[]]
  | x :: xs =>
    match splitOnChar c xs with
    | [] => [[]]
    | r :: rs => if x = c then [] :: r :: rs else (x :: r) :: rs

/-- Read a non-empty all-digit character list as a natural number. -/
def charsToNat (l : List Char) : Option Nat :=
  if l ≠ [] ∧ l.all Char.isDigit then
    some (l.foldl (fun acc c => acc * 10 + (c.toNat - 48)) 0)
  else none

/-- Modelled from the spec: parse the dot-separated numeric segments. -/
def parseSegs (l : List Char) : Option (List Nat) :=
  (splitOnChar '.' l).mapM charsToNat

/-- Modelled from the spec: split `core(-tag)?` at the first `-` into
numeric segments and an optional non-empty pre-release tag. -/
def parseMainTag (l : List Char) : Option (List Nat × Option String) :=
  let core := l.takeWhile (fun c => c ≠ '-')
  match l.dropWhile (fun c => c ≠ '-') with
  | [] => (parseSegs core).map (fun sg => (sg, none))
  | _ :: tagChars =>
      if tagChars = [] then none
      else (parseSegs core).map (fun sg => (sg, some (String.mk tagChars)))

/-- Modelled from the spec: `goolib.ParseVersion`, parsing
`N(.N)*(-tag)?(@R)?`; `none` is the `InvalidVersion` error. -/
def parseVersion (s : String) : Option GooVersion :=
  match splitOnChar '@' s.data with
  | [m] => do
      let (sg, tg) ← parseMainTag m
      pure ⟨sg, tg, 0⟩
  | [m, r] => do
      let (sg, tg) ← parseMainTag m
      let rv ← charsToNat r
      pure ⟨sg, tg, rv⟩
  | _ => none

/-- Drop trailing zero segments, so that comparison treats missing
segments as 0 (`1.2` = `1.2.0`). -/
def stripTrailingZeros (l : List Nat) : List Nat :=
  (l.reverse.dropWhile (fun n => n == 0)).reverse

instance : Batteries.TransCmp (fun a b : List Nat => compareOfLessAndEq a b) :=
  Batteries.TransCmp.compareOfLessAndEq
    (fun x => lt_irrefl x)
    (fun h1 h2 => lt_trans h1 h2)
    (fun h1 h2 => le_antisymm (not_lt.1 h2) (not_lt.1 h1))

/-- Compare numeric segment lists lexicographically, missing segments = 0. -/
def cmpSegs : List Nat → List Nat → Ordering :=
  Ordering.byKey stripTrailingZeros (compareOfLessAndEq · ·)

instance : Batteries.TransCmp cmpSegs :=
  inferInstanceAs (Batteries.TransCmp (Ordering.byKey stripTrailingZeros (compareOfLessAndEq · ·)))

/-- Order key for pre-release tags: a present tag sorts below an absent
one; two present tags compare as strings. -/
def tagKey (o : Option String) : Bool ×ₗ String :=
  toLex (o.isNone, o.getD "")

/-- Compare optional pre-release tags. -/
def cmpTag : Option String → Option String → Ordering :=
  Ordering.byKey tagKey compare

instance : Batteries.TransCmp cmpTag :=
  inferInstanceAs (Batteries.TransCmp (Ordering.byKey tagKey compare))

/-- Modelled from the spec: comparison of parsed versions — numeric
segments first, then pre-release tag, then revision. -/
def cmpVer : GooVersion → GooVersion → Ordering :=
  compareLex (Ordering.byKey GooVersion.seg cmpSegs)
    (compareLex (Ordering.byKey GooVersion.tag cmpTag)
      (Ordering.byKey GooVersion.rev compare))

instance : Batteries.TransCmp cmpVer :=
  inferInstanceAs (Batteries.TransCmp (compareLex (Ordering.byKey GooVersion.seg cmpSegs)
    (compareLex (Ordering.byKey GooVersion.tag cmpTag)
      (Ordering.byKey GooVersion.rev compare))))

/-- Map an `Ordering` to goolib's `-1 | 0 | 1` comparison result. -/
def ordInt : Ordering → Int
  | .lt => -1
  | .eq => 0
  | .gt => 1

/-- Modelled from the spec: `goolib.Compare(a, b)`, returning the integer
comparison result and whether parsing failed (Go's error return; the
integer is 0 in that case, and `latest` ignores the error). -/
def Compare (a b : String) : Int × Bool :=
  match parseVersion a, parseVersion b with
  | some va, some vb => (ordInt (cmpVer va vb), false)
  | _, _ => (0, true)

/-- The comparison value as `latest` consumes it. -/
def compareGo (a b : String) : Int :=
  (Compare a b).1

/-- A version string the spec's grammar accepts. -/
def goodV (s : String) : Prop := (parseVersion s).isSome

instance (s : String) : Decidable (goodV s) := by
  unfold goodV; infer_instance

/-! ## goolib data model

Projections of the `goolib` types onto the fields the embedded operations
read.  `PkgSpec.verify` is goolib's `Verify ExecSpec` member (verify.go
reads `Verify.Path`). -/

/-- The script entry of a `goolib.PkgSpec` (only the path is read here). -/
structure ExecSpec where
  path : String
deriving DecidableEq

/-- goolib.PkgSpec, projected to the fields the embedded code reads. -/
structure PkgSpec where
  name : String
  arch : String
  version : String
  verify : ExecSpec := ⟨""⟩
deriving DecidableEq

/-- goolib.PackageInfo. -/
structure PackageInfo where
  name : String
  arch : String
  ver : String
deriving DecidableEq

/-- goolib.RepoSpec: one entry of a repo index. -/
structure RepoSpec where
  source : String := ""
  checksum : String := ""
  packageSpec : PkgSpec
deriving DecidableEq

/-- Modelled from the spec: `goolib.SplitGCSUrl` (not among the embedded
sources; only its callers are).  A `gs://bucket/object` URL is recognised
by its scheme and split into bucket and object path. -/
def SplitGCSUrl (p : String) : Bool × String × String :=
  if "gs://".data.isPrefixOf p.data then
    let rest := p.data.drop 5
    let bucket := rest.takeWhile (fun c => c ≠ '/')
    match rest.dropWhile (fun c => c ≠ '/') with
    | [] => (true, String.mk bucket, "")
    | _ :: obj => (true, String.mk bucket, String.mk obj)
  else (false, "", "")

/-! ## client: package state (client.go) -/

/-- client.PackageState.  The fields are the union of the v1 declaration in
client.go and the two members (`InstalledApp`, `InstallDate`) that
googetdb.go additionally reads and writes;
`packageSpec` is embedded by value (the Go pointer never aliases here). -/
structure PackageState where
  sourceRepo : String := ""
  downloadURL : String := ""
  checksum : String := ""
  localPath : String := ""
  unpackDir : String := ""
  packageSpec : PkgSpec
  installedFiles : List (String × String) := []
  installedApp : String × String := ("", "")
  installDate : Int := 0
deriving DecidableEq

/-- client.PackageState.Match: whether the state corresponds to the package
info; empty `Arch` or `Ver` on the query side match anything. -/
def PackageState.Match (ps : PackageState) (pi : PackageInfo) : Bool :=
  ps.packageSpec.name == pi.name
    && (ps.packageSpec.arch == pi.arch || pi.arch == "")
    && (ps.packageSpec.version == pi.ver || pi.ver == "")

/-! ## client: repo maps and latest-version selection (client.go)

`client.RepoMap` is `map[string][]goolib.RepoSpec`; Go map iteration order
is unspecified, so the map is embedded as an association list carrying one
admissible iteration order. -/

/-- client.RepoMap as an association list (repo URL, index entries) in
iteration order. -/
abbrev RepoMap := List (String × List RepoSpec)

/-- One step of `latest`'s scan: adopt the first candidate, afterwards
replace the current best exactly when `goolib.Compare` returns 1. -/
def latestStep (r : String) (acc : String × String) (p : PkgSpec) : String × String :=
  if acc.1 == "" then (p.version, r)
  else if compareGo p.version acc.1 == 1 then (p.version, r)
  else acc

/-- client.latest: scan the per-repo candidate map, returning the best
(version, repo) seen; the named results start as `("", "")`. -/
def latest (psm : List (String × List PkgSpec)) : String × String :=
  psm.foldl (fun acc e => e.2.foldl (latestStep e.1) acc) ("", "")

/-- The per-repo candidate lists `FindRepoLatest` builds into `psm`:
specs of entries whose name and arch match the request. -/
def matchingSpecs (name arch : String) (pl : List RepoSpec) : List PkgSpec :=
  pl.filterMap (fun p =>
    if p.packageSpec.name == name && p.packageSpec.arch == arch
    then some p.packageSpec else none)

/-- The candidate map `psm` of `FindRepoLatest`: a key exists exactly for
the repos that contributed at least one candidate. -/
def buildPsm (name arch : String) (rm : RepoMap) : List (String × List PkgSpec) :=
  (rm.map (fun e => (e.1, matchingSpecs name arch e.2))).filter (fun e => !e.2.isEmpty)

/-- One scan step of `latest` over a flattened (repo, spec) pair. -/
def stepPair (acc : String × String) (rp : String × PkgSpec) : String × String :=
  latestStep rp.1 acc rp.2

/-- The candidate map flattened to (repo, spec) pairs in scan order. -/
def pairsOf (psm : List (String × List PkgSpec)) : List (String × PkgSpec) :=
  (psm.map (fun e => e.2.map (fun p => (e.1, p)))).flatten

/-- The arch loop of `FindRepoLatest` for an empty requested arch: first
arch whose candidate map is non-empty wins. -/
def findRepoLatestLoop (name : String) (rm : RepoMap) : List String → Except String (String × String × String)
  | [] => Except.error ("no versions of package " ++ name ++ " found in any repo")
  | a :: rest =>
      if (buildPsm name a rm).isEmpty then findRepoLatestLoop name rm rest
      else
        Except.ok ((latest (buildPsm name a rm)).1, (latest (buildPsm name a rm)).2, a)

/-- client.FindRepoLatest: latest version of a package with its repo and
arch. -/
def FindRepoLatest (pi : PackageInfo) (rm : RepoMap) (archs : List String) : Except String (String × String × String) :=
  if pi.arch ≠ "" then
    if (buildPsm pi.name pi.arch rm).isEmpty then
      Except.error ("no versions of package " ++ pi.name ++ "." ++ pi.arch ++ " found in any repo")
    else
      Except.ok ((latest (buildPsm pi.name pi.arch rm)).1,
        (latest (buildPsm pi.name pi.arch rm)).2, pi.arch)
  else findRepoLatestLoop pi.name rm archs

/-! ## client: repo index decoding and fetching (client.go)

An index payload is abstracted to the sequence of top-level JSON arrays it
contains (content-type sniffing, gzip and JSON syntax are outside the
model; the cache write at the end of `decode` is an effect the claims do
not touch). -/

/-- client.decode's decoder loop: `for dec.More() { dec.Decode(&m) }`.
Decoding a JSON array into a slice resets the slice length to zero before
appending (encoding/json semantics), so every iteration replaces `m`
with the freshly decoded array. -/
def decode (chunks : List (List RepoSpec)) : List RepoSpec :=
  chunks.foldl (fun _m c => c) []

/-- Result of an HTTP GET in the model: status code and the decoded body. -/
structure HTTPResp where
  status : Nat
  body : List (List RepoSpec)

/-- The HTTP transport: `Except` errors are transport failures
(`httpClient.Get` returning err), `ok` carries the response. -/
abbrev GetOracle := String → Except String HTTPResp

/-- Result of `unmarshalRepoPackagesHTTP` together with the requests it
issued, in order. -/
structure FetchOut where
  result : Except String (List RepoSpec)
  requests : List String

/-- client.unmarshalRepoPackagesHTTP: fetch `repoURL/index.gz`; on a
non-200 status fall back to `repoURL/index`; a non-200 status there too is
an error.  Transport errors propagate directly. -/
def unmarshalRepoPackagesHTTP (get : GetOracle) (repoURL : String) : FetchOut :=
  match get (repoURL ++ "/index.gz") with
  | Except.error e => ⟨Except.error e, [repoURL ++ "/index.gz"]⟩
  | Except.ok res =>
    if res.status ≠ 200 then
      match get (repoURL ++ "/index") with
      | Except.error e => ⟨Except.error e, [repoURL ++ "/index.gz", repoURL ++ "/index"]⟩
      | Except.ok res2 =>
        if res2.status ≠ 200 then
          ⟨Except.error "index GET request returned status",
           [repoURL ++ "/index.gz", repoURL ++ "/index"]⟩
        else ⟨Except.ok (decode res2.body), [repoURL ++ "/index.gz", repoURL ++ "/index"]⟩
    else ⟨Except.ok (decode res.body), [repoURL ++ "/index.gz"]⟩

/-- The object-storage effects of `unmarshalRepoPackagesGCS`:
client construction, the `index.gz` read (`none` when the reader or the
read fails) and the plain `index` read. -/
structure GCSOracle where
  newClient : Except String Unit
  readGz : Option (List (List RepoSpec))
  readPlain : Except String (List (List RepoSpec))

/-- client.unmarshalRepoPackagesGCS: with a proxy configured the repo is
skipped — an empty list with a nil error.  Otherwise try `index.gz`, then
plain `index`. -/
def unmarshalRepoPackagesGCS (g : GCSOracle) (bucket object proxyServer : String) : Except String (List RepoSpec) :=
  if proxyServer ≠ "" then Except.ok []
  else
    match g.newClient with
    | Except.error e => Except.error e
    | Except.ok _ =>
      match g.readGz with
      | some chunks => Except.ok (decode chunks)
      | none =>
        match g.readPlain with
        | Except.error e =>
            Except.error ("Failed to read gs://" ++ bucket ++ "/" ++ object ++ ": " ++ e)
        | Except.ok chunks => Except.ok (decode chunks)

/-- The cache state `unmarshalRepoPackages` finds for a repo URL:
a fresh cache file (with its decoded contents), a stale one, none at all,
or a `Stat` failure other than non-existence. -/
inductive CacheStatus
  | fresh (chunks : List (List RepoSpec))
  | stale
  | absent
  | statErr (e : String)

/-- client.unmarshalRepoPackages: use the cached contents when fresh
(the cached read uses the same replacing decoder loop), propagate `Stat`
errors other than non-existence, and otherwise dispatch on the URL scheme
to the GCS or HTTP fetcher. -/
def unmarshalRepoPackages (cache : CacheStatus) (get : GetOracle) (g : GCSOracle) (p proxyServer : String) : Except String (List RepoSpec) :=
  match cache with
  | CacheStatus.fresh chunks => Except.ok (decode chunks)
  | CacheStatus.statErr e => Except.error e
  | _ =>
    if (SplitGCSUrl p).1 then
      unmarshalRepoPackagesGCS g (SplitGCSUrl p).2.1 (SplitGCSUrl p).2.2 proxyServer
    else (unmarshalRepoPackagesHTTP get p).result

/-! ## googetdb: the SQLite state store (googetdb.go)

The `InstalledPackages` table is embedded as a list of rows in rowid
order.  `INSERT OR REPLACE` under `UNIQUE(PkgName, PkgArch) ON CONFLICT
REPLACE` deletes the conflicting row and appends the new one.  The SQLite
driver's ability to fail an `Exec` is a predicate supplied as an oracle;
`addPkg` rolls its own transaction back on such a failure. -/

/-- One row of `InstalledPackages`: the three key columns and the
`PkgJson` blob, kept as the `PackageState` it serialises. -/
structure DBRow where
  pkgName : String
  pkgArch : String
  pkgVer : String
  pkgJson : PackageState
deriving DecidableEq

/-- The `InstalledPackages` table in rowid order. -/
abbrev Table := List DBRow

/-- The mutation `addPkg` applies to its argument before marshalling:
`InstalledApp` from `system.AppAssociation` (an oracle here) and
`InstallDate` from the clock. -/
def stampPkg (appAssoc : PackageState → String × String) (now : Int) (ps : PackageState) : PackageState :=
  { ps with installedApp := appAssoc ps, installDate := now }

/-- The row `addPkg` binds into the upsert statement:
`(PkgName, PkgVer, PkgArch, PkgJson) = (spec.Name, spec.Version, spec.Arch, json)`. -/
def rowOf (ps : PackageState) : DBRow :=
  ⟨ps.packageSpec.name, ps.packageSpec.arch, ps.packageSpec.version, ps⟩

/-- Upsert semantics of the `INSERT or REPLACE` statement under the
`(PkgName, PkgArch)` unique key. -/
def upsertRow (t : Table) (r : DBRow) : Table :=
  t.filter (fun q => !(q.pkgName == r.pkgName && q.pkgArch == r.pkgArch)) ++ [r]

/-- googetdb.addPkg: stamp the state, begin a transaction, execute the
upsert and commit; when the execution fails the transaction is rolled
back and the error returned, leaving the table untouched. -/
def addPkg (fails : PackageState → Bool) (appAssoc : PackageState → String × String) (now : Int) (t : Table) (ps0 : PackageState) : Except String Table :=
  let ps := stampPkg appAssoc now ps0
  if fails ps then Except.error "addPkg exec failed"
  else Except.ok (upsertRow t (rowOf ps))

/-- googetdb.WriteStateToDB: call `addPkg` for each entry in order and
stop at the first error, returning the table as committed so far. -/
def WriteStateToDB (fails : PackageState → Bool) (appAssoc : PackageState → String × String) (now : Int) (t : Table) : List PackageState → Table × Option String
  | [] => (t, none)
  | ps :: rest =>
    match addPkg fails appAssoc now t ps with
    | Except.ok t' => WriteStateToDB fails appAssoc now t' rest
    | Except.error e => (t, some e)

/-- The zero-value `client.PackageState` that `FetchPkg` declares. -/
def emptyPackageState : PackageState :=
  { packageSpec := { name := "", arch := "", version := "" } }

/-- googetdb.FetchPkg: scan the rows whose `PkgName` matches (the query
orders only by the constant `PkgName`, so rows arrive in table order),
unmarshal each into the same variable — the last row survives — and
always return a nil error. -/
def FetchPkg (t : Table) (pkgName : String) : PackageState × Option String :=
  ((t.filter (fun r => r.pkgName == pkgName)).foldl (fun _acc r => r.pkgJson) emptyPackageState, none)

/-- googetdb.RemovePkg: `DELETE … WHERE PkgName = name AND PkgArch = arch`
inside its own transaction. -/
def RemovePkg (t : Table) (packageName arch : String) : Table :=
  t.filter (fun r => !(r.pkgName == packageName && r.pkgArch == arch))

/-! ## verify: RunVerifyCommand (verify/verify.go)

Every external effect is an oracle field; the output records whether the
control flow reached the second `system.Verify` call, the one that runs
after the package archive has been (re)extracted by `download.ExtractPkg`. -/

/-- Result of `os.Open(ps.LocalPath)`. -/
inductive OpenRes
  | ok
  | notExist
  | err (e : String)

/-- The effects of `RunVerifyCommand`, in invocation order. -/
structure VerifyEnv where
  openLocal : OpenRes
  checksumLocal : String
  proxyParse : Except String Unit
  httpGet : Except String Unit
  extractVerify : Except String Unit
  sysVerify1 : Except String Unit
  downloadPackage : Except String Unit
  extractPkg : Except String String
  sysVerify2 : Except String Unit

/-- What `RunVerifyCommand` returns — `(ok, err)` — together with whether
the second `system.Verify` (after full re-extraction) was invoked. -/
structure VerifyOut where
  ok : Bool
  err : Option String
  ranSecondVerify : Bool
deriving DecidableEq

/-- The `rd` flag before the checksum check: re-download when the local
archive does not exist. -/
def verifyRd0 : OpenRes → Bool
  | OpenRes.notExist => true
  | _ => false

/-- The `rd` flag after the checksum check: also re-download when a saved
checksum exists and the local archive does not match it (an empty saved
checksum marks a local install and is ignored). -/
def verifyRd (rd0 : Bool) (ps : PackageState) (localChecksum : String) : Bool :=
  if !rd0 && ps.checksum ≠ "" && localChecksum ≠ ps.checksum then true else rd0

/-- The streaming source of the archive: the local file, or — when `rd` —
an HTTP GET of `ps.DownloadURL` (failing when no URL was saved, and
parsing the proxy URL first when one is configured). -/
def verifyFetch (env : VerifyEnv) (ps : PackageState) (proxyServer : String) (rd : Bool) : Except String Unit :=
  if rd then
    if ps.downloadURL = "" then
      Except.error ("can not pull package " ++ ps.packageSpec.name ++ " from repo, DownloadURL not saved")
    else if proxyServer ≠ "" then
      match env.proxyParse with
      | Except.error e => Except.error e
      | Except.ok _ => env.httpGet
    else env.httpGet
  else Except.ok ()

/-- The tail of `RunVerifyCommand` after the archive stream is available:
extract the verify member and run it; on failure re-download when `rd`,
re-extract the whole package and run the script once more — that second
failure is `(false, nil)`. -/
def verifyTail (env : VerifyEnv) (rd : Bool) : VerifyOut :=
  match env.extractVerify with
  | Except.error e => ⟨false, some e, false⟩
  | Except.ok _ =>
    match env.sysVerify1 with
    | Except.ok _ => ⟨true, none, false⟩
    | Except.error _ =>
      match (if rd then env.downloadPackage else Except.ok ()) with
      | Except.error e => ⟨false, some ("error redownloading package: " ++ e), false⟩
      | Except.ok _ =>
        match env.extractPkg with
        | Except.error e => ⟨false, some e, false⟩
        | Except.ok _ =>
          match env.sysVerify2 with
          | Except.error _ => ⟨false, none, true⟩
          | Except.ok _ => ⟨true, none, true⟩

/-- verify.RunVerifyCommand: empty verify path short-circuits to true; a
missing or checksum-mismatching local archive forces a re-download; the
verify member is extracted and run once, and on any failure the package is
re-downloaded if needed, fully re-extracted and verified again — that
second script failure is reported as `(false, nil)`. -/
def RunVerifyCommand (env : VerifyEnv) (ps : PackageState) (proxyServer : String) : VerifyOut :=
  if ps.packageSpec.verify.path == "" then ⟨true, none, false⟩
  else
    match env.openLocal with
    | OpenRes.err e => ⟨false, some e, false⟩
    | opened =>
      match verifyFetch env ps proxyServer (verifyRd (verifyRd0 opened) ps env.checksumLocal) with
      | Except.error e => ⟨false, some e, false⟩
      | Except.ok _ => verifyTail env (verifyRd (verifyRd0 opened) ps env.checksumLocal)

/-! ## The spec's selection algorithm (§4.G.1 step 3)

A second definition, following the spec's words, for comparison with
`FindRepoLatest`: among candidates grouped by repo, pick the repo with the
highest priority; within ties the repo containing the highest version
wins; within that repo the highest version wins; ties on version across
same-priority repos are broken by lexicographic repo URL.  The client's
`RepoMap` carries no priorities, so they are supplied as a map with the
spec's default of 500. -/

/-- Highest version in a repo's candidate list (spec wording). -/
def specBestVer (pl : List PkgSpec) : String :=
  pl.foldl (fun acc p =>
    if acc == "" then p.version
    else if compareGo p.version acc == 1 then p.version else acc) ""

/-- Spec wording: prefer higher priority, then higher best version, then
the lexicographically smaller repo URL. -/
def specBetterRepo (prio : String → Int) (x y : String × List PkgSpec) : String × List PkgSpec :=
  if prio x.1 < prio y.1 then y
  else if prio y.1 < prio x.1 then x
  else if compareGo (specBestVer y.2) (specBestVer x.2) == 1 then y
  else if compareGo (specBestVer x.2) (specBestVer y.2) == 1 then x
  else if y.1.data < x.1.data then y
  else x

/-- The spec's latest-version selection for a fixed arch. -/
def specFindRepoLatest (prio : String → Int) (name arch : String) (rm : RepoMap) : Option (String × String × String) :=
  match buildPsm name arch rm with
  | [] => none
  | e :: es =>
    let w := es.foldl (specBetterRepo prio) e
    some (specBestVer w.2, w.1, arch)

/-! ## Concrete instances used by counterexamples and witnesses -/

/-- Three repos that all serve `foo.x86_64.1.0`; in the embedded iteration
order `repo-b` comes first, while `repo-a` is the lexicographically least
URL and `repo-c` the greatest. -/
def c1rm : RepoMap :=
  [("repo-b", [{ packageSpec := { name := "foo", arch := "x86_64", version := "1.0" } }]),
   ("repo-a", [{ packageSpec := { name := "foo", arch := "x86_64", version := "1.0" } }]),
   ("repo-c", [{ packageSpec := { name := "foo", arch := "x86_64", version := "1.0" } }])]

/-- The fixed-arch request for `foo` used against `c1rm`. -/
def c1pi : PackageInfo := ⟨"foo", "x86_64", ""⟩

/-- A repo serving `foo` only for `x86_64` and `bar` only for `noarch`. -/
def c7rm : RepoMap :=
  [("r1", [{ packageSpec := { name := "foo", arch := "x86_64", version := "2.0" } },
           { packageSpec := { name := "bar", arch := "noarch", version := "1.0" } }])]

/-- The empty-arch request for `foo` used against `c7rm`. -/
def c7pi : PackageInfo := ⟨"foo", "", ""⟩

/-- A state for package `a`. -/
def psA : PackageState := { packageSpec := { name := "a", arch := "noarch", version := "1.0" } }

/-- A state for package `b`. -/
def psB : PackageState := { packageSpec := { name := "b", arch := "noarch", version := "1.0" } }

/-- A database failure oracle that rejects exactly package `b`. -/
def failsB : PackageState → Bool := fun ps => ps.packageSpec.name == "b"

/-- A trivial `system.AppAssociation` oracle. -/
def noApp : PackageState → String × String := fun _ => ("", "")

/-- Row `foo.x86_64` at version 2.0 (inserted first). -/
def c3row1 : DBRow :=
  ⟨"foo", "x86_64", "2.0", { packageSpec := { name := "foo", arch := "x86_64", version := "2.0" } }⟩

/-- Row `foo.noarch` at version 1.0 (inserted second). -/
def c3row2 : DBRow :=
  ⟨"foo", "noarch", "1.0", { packageSpec := { name := "foo", arch := "noarch", version := "1.0" } }⟩

/-- A single installed row with a non-empty arch. -/
def c4row : DBRow :=
  ⟨"foo", "x86_64", "1.0", { packageSpec := { name := "foo", arch := "x86_64", version := "1.0" } }⟩

/-- First index array entry. -/
def rsA : RepoSpec := { packageSpec := { name := "a", arch := "noarch", version := "1.0" } }

/-- Second index array entry. -/
def rsB : RepoSpec := { packageSpec := { name := "b", arch := "noarch", version := "1.0" } }

/-- An HTTP oracle that answers every request with status 404. -/
def getEx : GetOracle := fun _ => Except.ok ⟨404, []⟩

/-- A GCS oracle whose reads would succeed with an empty index. -/
def gEx : GCSOracle := ⟨Except.ok (), none, Except.ok []⟩

/-- A verify run in which the local archive is present and intact, the
first script run fails, re-extraction succeeds and the second script run
fails again. -/
def envEx : VerifyEnv :=
  ⟨OpenRes.ok, "", Except.ok (), Except.ok (), Except.ok (),
   Except.error "exit status 1", Except.ok (), Except.ok "cache/p.noarch.1.0",
   Except.error "exit status 1"⟩

/-- A locally installed package (empty checksum) with a verify script. -/
def psEx : PackageState :=
  { packageSpec := { name := "p", arch := "noarch", version := "1.0", verify := ⟨"verify.ps1"⟩ } }

/-! ## Lemmas about the version comparison -/

example : compareGo "1.2" "1.2.0" = 0 := by decide
example : compareGo "2.0" "1.9.9" = 1 := by decide
example : compareGo "1.0-beta" "1.0" = -1 := by decide
example : compareGo "1.0@3" "1.0@12" = -1 := by decide

theorem ordInt_eq_one (o : Ordering) : ordInt o = 1 ↔ o = Ordering.gt := by
  cases o <;> decide

theorem compareGo_ne_one_of_bad (a b : String) (h : ¬ goodV b) : compareGo a b ≠ 1 := by
  unfold compareGo Compare
  cases hA : parseVersion a <;> cases hB : parseVersion b <;>
    simp_all [goodV]

theorem compareGo_gt_asymm (a b : String) (h : compareGo a b = 1) : compareGo b a ≠ 1 := by
  unfold compareGo Compare at h ⊢
  cases hA : parseVersion a <;> cases hB : parseVersion b <;> simp_all
  intro hgt
  rw [ordInt_eq_one] at h hgt
  exact Batteries.TransCmp.gt_asymm h hgt

theorem compareGo_le_trans (x y z : String) (hx : goodV x) (hy : goodV y) (hz : goodV z)
    (h1 : compareGo x y ≠ 1) (h2 : compareGo y z ≠ 1) : compareGo x z ≠ 1 := by
  obtain ⟨vx, hvx⟩ := Option.isSome_iff_exists.1 hx
  obtain ⟨vy, hvy⟩ := Option.isSome_iff_exists.1 hy
  obtain ⟨vz, hvz⟩ := Option.isSome_iff_exists.1 hz
  unfold compareGo Compare at *
  rw [hvx, hvy] at h1
  rw [hvy, hvz] at h2
  rw [hvx, hvz]
  simp only [ne_eq, ordInt_eq_one] at h1 h2 ⊢
  exact Batteries.TransCmp.le_trans h1 h2

theorem goodV_not_empty : ¬ goodV "" := by decide

theorem compareGo_self_ne_one (x : String) : compareGo x x ≠ 1 := by
  unfold compareGo Compare
  cases h : parseVersion x with
  | none => simp
  | some v =>
      have hr : cmpVer v v = Ordering.eq := Batteries.OrientedCmp.cmp_refl
      simp [hr, ordInt]

/-! ## Lemmas about `latest` and `FindRepoLatest` -/

theorem latest_eq_pairs (psm : List (String × List PkgSpec)) :
    ∀ acc, psm.foldl (fun acc e => e.2.foldl (latestStep e.1) acc) acc =
      (pairsOf psm).foldl stepPair acc := by
  induction psm with
  | nil => intro acc; simp [pairsOf]
  | cons e es ih =>
      intro acc
      rw [List.foldl_cons, ih]
      simp only [pairsOf, List.map_cons, List.flatten_cons, List.foldl_append, List.foldl_map]
      rfl

theorem latest_eq (psm : List (String × List PkgSpec)) :
    latest psm = (pairsOf psm).foldl stepPair ("", "") :=
  latest_eq_pairs psm ("", "")

theorem foldl_stepPair_result (l : List (String × PkgSpec)) :
    ∀ acc, l.foldl stepPair acc = acc ∨
      ∃ rp ∈ l, l.foldl stepPair acc = (rp.2.version, rp.1) := by
  induction l with
  | nil => intro acc; exact Or.inl rfl
  | cons rp rest ih =>
      intro acc
      have hstep : stepPair acc rp = acc ∨ stepPair acc rp = (rp.2.version, rp.1) := by
        unfold stepPair latestStep
        by_cases h1 : acc.1 == ""
        · rw [if_pos h1]; exact Or.inr rfl
        · rw [if_neg h1]
          by_cases h2 : compareGo rp.2.version acc.1 == 1
          · rw [if_pos h2]; exact Or.inr rfl
          · rw [if_neg h2]; exact Or.inl rfl
      rcases ih (stepPair acc rp) with h | ⟨rq, hq, hres⟩
      · rw [List.foldl_cons, h]
        rcases hstep with h' | h'
        · exact Or.inl h'
        · exact Or.inr ⟨rp, List.mem_cons_self _ _, h'⟩
      · exact Or.inr ⟨rq, List.mem_cons_of_mem _ hq, by rw [List.foldl_cons]; exact hres⟩

theorem latest_mem (psm : List (String × List PkgSpec)) (h : pairsOf psm ≠ []) :
    ∃ rp ∈ pairsOf psm, latest psm = (rp.2.version, rp.1) := by
  obtain ⟨rp0, l', hl⟩ := List.exists_cons_of_ne_nil h
  rw [latest_eq, hl]
  have hfirst : stepPair ("", "") rp0 = (rp0.2.version, rp0.1) := by
    unfold stepPair latestStep
    simp
  rw [List.foldl_cons, hfirst]
  rcases foldl_stepPair_result l' (rp0.2.version, rp0.1) with h' | ⟨rq, hq, hres⟩
  · exact ⟨rp0, List.mem_cons_self _ _, h'⟩
  · exact ⟨rq, List.mem_cons_of_mem _ hq, hres⟩

theorem foldl_stepPair_max (l : List (String × PkgSpec)) :
    ∀ (acc : String × String),
      (∀ rp ∈ l, goodV rp.2.version) →
      (acc.1 ≠ "" → goodV acc.1) →
      (∀ rp ∈ l, compareGo rp.2.version (l.foldl stepPair acc).1 ≠ 1) ∧
      (goodV acc.1 → compareGo acc.1 (l.foldl stepPair acc).1 ≠ 1) := by
  induction l with
  | nil =>
      intro acc _ _
      exact ⟨by simp, fun _ => compareGo_self_ne_one acc.1⟩
  | cons rp rest ih =>
      intro acc hgood hacc
      have hrp : goodV rp.2.version := hgood rp (List.mem_cons_self _ _)
      have hrest : ∀ rq ∈ rest, goodV rq.2.version :=
        fun rq hq => hgood rq (List.mem_cons_of_mem _ hq)
      by_cases h1 : acc.1 == ""
      · have hstep : stepPair acc rp = (rp.2.version, rp.1) := by
          unfold stepPair latestStep; simp [h1]
        rw [List.foldl_cons, hstep]
        obtain ⟨ih1, ih2⟩ := ih (rp.2.version, rp.1) hrest (fun _ => hrp)
        refine ⟨?_, ?_⟩
        · intro rq hq
          rcases List.mem_cons.1 hq with rfl | hq'
          · exact ih2 hrp
          · exact ih1 rq hq'
        · intro hga
          have : acc.1 = "" := by simpa using h1
          rw [this] at hga
          exact absurd hga goodV_not_empty
      · by_cases h2 : compareGo rp.2.version acc.1 == 1
        · have hstep : stepPair acc rp = (rp.2.version, rp.1) := by
            unfold stepPair latestStep; simp [h1, h2]
          rw [List.foldl_cons, hstep]
          obtain ⟨ih1, ih2⟩ := ih (rp.2.version, rp.1) hrest (fun _ => hrp)
          have hfin := ih2 hrp
          refine ⟨?_, ?_⟩
          · intro rq hq
            rcases List.mem_cons.1 hq with rfl | hq'
            · exact hfin
            · exact ih1 rq hq'
          · intro hga
            have h21 : compareGo rp.2.version acc.1 = 1 := by simpa using h2
            have hax : compareGo acc.1 rp.2.version ≠ 1 := compareGo_gt_asymm _ _ h21
            by_cases hgf : goodV (rest.foldl stepPair (rp.2.version, rp.1)).1
            · exact compareGo_le_trans _ _ _ hga hrp hgf hax hfin
            · exact compareGo_ne_one_of_bad _ _ hgf
        · have hstep : stepPair acc rp = acc := by
            unfold stepPair latestStep; simp [h1, h2]
          rw [List.foldl_cons, hstep]
          obtain ⟨ih1, ih2⟩ := ih acc hrest hacc
          have hane : acc.1 ≠ "" := by simpa using h1
          have hga : goodV acc.1 := hacc hane
          have hfin := ih2 hga
          refine ⟨?_, ?_⟩
          · intro rq hq
            rcases List.mem_cons.1 hq with rfl | hq'
            · have hskip : compareGo rq.2.version acc.1 ≠ 1 := by simpa using h2
              by_cases hgf : goodV (rest.foldl stepPair acc).1
              · exact compareGo_le_trans _ _ _ hrp hga hgf hskip hfin
              · exact compareGo_ne_one_of_bad _ _ hgf
            · exact ih1 rq hq'
          · intro _
            exact hfin

theorem latest_max (psm : List (String × List PkgSpec))
    (hgood : ∀ rp ∈ pairsOf psm, goodV rp.2.version) :
    ∀ rp ∈ pairsOf psm, compareGo rp.2.version (latest psm).1 ≠ 1 := by
  rw [latest_eq]
  exact (foldl_stepPair_max (pairsOf psm) ("", "") hgood (fun hne => absurd rfl hne)).1

theorem buildPsm_pairs_ne (name arch : String) (rm : RepoMap)
    (h : buildPsm name arch rm ≠ []) : pairsOf (buildPsm name arch rm) ≠ [] := by
  obtain ⟨e, es, heq⟩ := List.exists_cons_of_ne_nil h
  have hmem : e ∈ buildPsm name arch rm := heq ▸ List.mem_cons_self _ _
  have hent : ¬ e.2.isEmpty := by
    unfold buildPsm at hmem
    simpa using (List.mem_filter.1 hmem).2
  have he2 : e.2 ≠ [] := by
    intro hx
    exact hent (by rw [hx]; rfl)
  rw [heq]
  unfold pairsOf
  simp only [List.map_cons, List.flatten_cons, ne_eq, List.append_eq_nil]
  intro hcon
  exact he2 (List.map_eq_nil_iff.1 hcon.1)

/-- C1 (amended): with a fixed arch, `FindRepoLatest` fails
exactly when no repo has a candidate, and otherwise returns a candidate
(version, repo) pair whose version no candidate in any repo strictly
exceeds — priorities play no role. -/
theorem FindRepoLatest_highest_version (pi : PackageInfo) (rm : RepoMap) (archs : List String)
    (hne : pi.arch ≠ "")
    (hgood : ∀ rp ∈ pairsOf (buildPsm pi.name pi.arch rm), goodV rp.2.version) :
    (buildPsm pi.name pi.arch rm = [] ∧ ∃ e, FindRepoLatest pi rm archs = Except.error e) ∨
    (∃ rp ∈ pairsOf (buildPsm pi.name pi.arch rm),
      FindRepoLatest pi rm archs = Except.ok (rp.2.version, rp.1, pi.arch) ∧
      ∀ rq ∈ pairsOf (buildPsm pi.name pi.arch rm),
        compareGo rq.2.version rp.2.version ≠ 1) := by
  unfold FindRepoLatest
  rw [if_pos hne]
  by_cases hempty : (buildPsm pi.name pi.arch rm).isEmpty
  · left
    refine ⟨?_, ?_⟩
    · cases hb : buildPsm pi.name pi.arch rm
      · rfl
      · rw [hb] at hempty; cases hempty
    · rw [if_pos hempty]
      exact ⟨_, rfl⟩
  · right
    rw [if_neg hempty]
    have hne2 : buildPsm pi.name pi.arch rm ≠ [] := by
      intro hx
      rw [hx] at hempty
      exact hempty rfl
    obtain ⟨rp, hmem, hlat⟩ := latest_mem _ (buildPsm_pairs_ne _ _ _ hne2)
    refine ⟨rp, hmem, by rw [hlat], ?_⟩
    intro rq hq
    have hmax := latest_max _ hgood rq hq
    rwa [hlat] at hmax

/-- C7: with an empty requested arch, the first arch in `archs`
with any candidate decides the result, and the returned (version, repo)
pair comes from that arch's candidates; no arch with a candidate means an
error. -/
theorem FindRepoLatest_arch_order (pi : PackageInfo) (rm : RepoMap) (archs : List String)
    (h : pi.arch = "") :
    match archs.find? (fun a => !(buildPsm pi.name a rm).isEmpty) with
    | none => ∃ e, FindRepoLatest pi rm archs = Except.error e
    | some a => ∃ rp ∈ pairsOf (buildPsm pi.name a rm),
        FindRepoLatest pi rm archs = Except.ok (rp.2.version, rp.1, a) := by
  have hne : ¬ pi.arch ≠ "" := by simp [h]
  unfold FindRepoLatest
  rw [if_neg hne]
  induction archs with
  | nil => exact ⟨_, rfl⟩
  | cons a rest ih =>
      by_cases he : (buildPsm pi.name a rm).isEmpty
      · rw [List.find?_cons_of_neg _ (by simpa using he)]
        unfold findRepoLatestLoop
        rw [if_pos he]
        exact ih
      · rw [List.find?_cons_of_pos _ (by simpa using he)]
        unfold findRepoLatestLoop
        rw [if_neg he]
        have hne2 : buildPsm pi.name a rm ≠ [] := by
          intro hx
          rw [hx] at he
          exact he rfl
        obtain ⟨rp, hmem, hlat⟩ := latest_mem _ (buildPsm_pairs_ne _ _ _ hne2)
        exact ⟨rp, hmem, by rw [hlat]⟩

/-- C1 witness: the fixed-arch request `foo.x86_64` against `c1rm`
instantiates the amended claim. -/
theorem FindRepoLatest_highest_version_witness :
    (buildPsm c1pi.name c1pi.arch c1rm = [] ∧ ∃ e, FindRepoLatest c1pi c1rm [] = Except.error e) ∨
    (∃ rp ∈ pairsOf (buildPsm c1pi.name c1pi.arch c1rm),
      FindRepoLatest c1pi c1rm [] = Except.ok (rp.2.version, rp.1, c1pi.arch) ∧
      ∀ rq ∈ pairsOf (buildPsm c1pi.name c1pi.arch c1rm),
        compareGo rq.2.version rp.2.version ≠ 1) :=
  FindRepoLatest_highest_version c1pi c1rm [] (by decide) (by decide)

/-- C1 counterexample: three repos tie at `foo.x86_64.1.0`.  All carry the
spec's default priority 500, so the claim's tie-break demands the
lexicographically ordered repo URL (`repo-a` ascending — and even the
descending reading would give `repo-c`), but the code returns `repo-b`,
the repo its map iteration happened to visit first. -/
theorem FindRepoLatest_lex_tie_counterexample :
    FindRepoLatest c1pi c1rm [] = Except.ok ("1.0", "repo-b", "x86_64") ∧
    specFindRepoLatest (fun _ => 500) c1pi.name c1pi.arch c1rm = some ("1.0", "repo-a", "x86_64") ∧
    ("repo-b" : String) ≠ "repo-a" ∧ ("repo-b" : String) ≠ "repo-c" :=
  ⟨rfl, by decide, by decide, by decide⟩

/-- C7 witness: requesting `foo` with empty arch against `c7rm` skips
`noarch` (no candidate) and resolves on `x86_64`. -/
theorem FindRepoLatest_arch_order_witness :
    ∃ rp ∈ pairsOf (buildPsm c7pi.name "x86_64" c7rm),
      FindRepoLatest c7pi c7rm ["noarch", "x86_64"] = Except.ok (rp.2.version, rp.1, "x86_64") :=
  FindRepoLatest_arch_order c7pi c7rm ["noarch", "x86_64"] rfl

/-- C8: `PackageState.Match` holds exactly when the spec name matches and
the queried arch and version each either match or are empty wildcards. -/
theorem Match_iff (ps : PackageState) (pi : PackageInfo) :
    ps.Match pi = true ↔
      (ps.packageSpec.name = pi.name ∧
       (ps.packageSpec.arch = pi.arch ∨ pi.arch = "") ∧
       (ps.packageSpec.version = pi.ver ∨ pi.ver = "")) := by
  simp [PackageState.Match, and_assoc]

theorem foldl_const_last {α β : Type} (l : List α) (f : α → β) (init : β) :
    l.foldl (fun _ r => f r) init = (l.getLast?.map f).getD init := by
  induction l using List.reverseRecOn with
  | nil => rfl
  | append_singleton m a _ => simp [List.foldl_append, List.getLast?_concat]

/-- C5 (amended): the decoder loop keeps only the last top-level array of
a stream of concatenated arrays — every earlier array is discarded,
because each `Decode(&m)` resets the slice before filling it. -/
theorem decode_keeps_last_array (chunks : List (List RepoSpec)) :
    decode chunks = chunks.getLast?.getD [] := by
  unfold decode
  rw [foldl_const_last chunks (fun c => c) []]
  cases chunks.getLast? <;> rfl

/-- C5 counterexample: a stream of two concatenated arrays `[[rsA], [rsB]]`
decodes to `[rsB]` alone — `rsA` from the earlier array is lost, not
appended as the claim states. -/
theorem decode_drops_earlier_arrays_counterexample :
    decode [[rsA], [rsB]] = [rsB] ∧ rsA ∉ decode [[rsA], [rsB]] ∧
    decode [[rsA], [rsB]] ≠ [rsA, rsB] := by
  refine ⟨rfl, ?_, ?_⟩ <;> decide

/-- C3 (amended): `FetchPkg` returns the last matching row in scan order
(the query orders only by the constant `PkgName`, and each unmarshal
overwrites the previous row) — versions are never compared — together
with an always-nil error; no matching row gives the empty state. -/
theorem FetchPkg_returns_last_row (t : Table) (name : String) :
    FetchPkg t name =
      (((t.filter (fun r => r.pkgName == name)).getLast?.map DBRow.pkgJson).getD
        emptyPackageState, none) := by
  unfold FetchPkg
  rw [foldl_const_last]

/-- C3 counterexample: rows `foo.x86_64@2.0` and `foo.noarch@1.0` in scan
order.  The claim demands the greatest version (2.0); the code returns the
last row scanned, version 1.0. -/
theorem FetchPkg_ignores_versions_counterexample :
    (FetchPkg [c3row1, c3row2] "foo").1 = c3row2.pkgJson ∧
    (FetchPkg [c3row1, c3row2] "foo").1.packageSpec.version = "1.0" ∧
    compareGo c3row1.pkgVer (FetchPkg [c3row1, c3row2] "foo").1.packageSpec.version = 1 ∧
    (FetchPkg [c3row1, c3row2] "foo").2 = none := by
  refine ⟨rfl, rfl, ?_, rfl⟩
  decide

/-- C4 (amended): `RemovePkg` deletes exactly the rows whose name and arch
both equal the arguments — an empty arch matches only rows whose stored
arch is itself empty — and it is idempotent. -/
theorem RemovePkg_deletes_exact_match (t : Table) (name arch : String) :
    (∀ r : DBRow, r ∈ RemovePkg t name arch ↔
      r ∈ t ∧ ¬(r.pkgName = name ∧ r.pkgArch = arch)) ∧
    RemovePkg (RemovePkg t name arch) name arch = RemovePkg t name arch := by
  constructor
  · intro r
    simp [RemovePkg, List.mem_filter, not_and]
    tauto
  · unfold RemovePkg
    rw [List.filter_filter]
    simp

/-- C4 counterexample: with `foo.x86_64` installed, `RemovePkg("foo", "")`
deletes nothing — the claim says an empty arch removes every row of that
name. -/
theorem RemovePkg_empty_arch_counterexample :
    RemovePkg [c4row] "foo" "" = [c4row] ∧
    c4row.pkgName = "foo" ∧ c4row.pkgArch ≠ "" := by
  refine ⟨rfl, rfl, ?_⟩
  decide

/-- C2 (amended): `WriteStateToDB` gives every entry its own transaction:
the entries before the first failing upsert stay committed, the failing
entry alone is rolled back, and the error is returned — the batch is not
atomic. -/
theorem WriteStateToDB_per_entry_transactions (fails : PackageState → Bool)
    (appAssoc : PackageState → String × String) (now : Int) (t : Table)
    (states : List PackageState) :
    WriteStateToDB fails appAssoc now t states =
      ((states.takeWhile (fun ps => !fails (stampPkg appAssoc now ps))).foldl
         (fun acc ps => upsertRow acc (rowOf (stampPkg appAssoc now ps))) t,
       if states.all (fun ps => !fails (stampPkg appAssoc now ps)) then none
       else some "addPkg exec failed") := by
  induction states generalizing t with
  | nil => rfl
  | cons ps rest ih =>
      by_cases hf : fails (stampPkg appAssoc now ps)
      · simp [WriteStateToDB, addPkg, hf]
      · simp [WriteStateToDB, addPkg, hf, ih]

/-- C2 counterexample: upserting `[psA, psB]` into an empty table with the
`psB` upsert failing leaves `psA`'s row committed — the table is not
restored to its pre-call contents, so the batch did not roll back. -/
theorem WriteStateToDB_not_atomic_counterexample :
    (WriteStateToDB failsB noApp 0 [] [psA, psB]).2.isSome ∧
    (WriteStateToDB failsB noApp 0 [] [psA, psB]).1 ≠ [] := by
  refine ⟨rfl, ?_⟩
  decide

theorem index_ne_index_gz (r : String) : r ++ "/index" ≠ r ++ "/index.gz" := by
  intro h
  have hd := congrArg String.data h
  rw [String.data_append, String.data_append] at hd
  have hsuffix := List.append_cancel_left hd
  exact absurd hsuffix (by decide)

/-- C6: the HTTP index fetch asks for `repoURL/index.gz` first, asks for
`repoURL/index` exactly when the gzipped request came back with a non-200
status, and when both requests come back non-200 the result is an error,
not a RepoSpec list. -/
theorem unmarshalRepoPackagesHTTP_fallback (get : GetOracle) (r : String) :
    (unmarshalRepoPackagesHTTP get r).requests.head? = some (r ++ "/index.gz") ∧
    ((r ++ "/index") ∈ (unmarshalRepoPackagesHTTP get r).requests ↔
      ∃ res, get (r ++ "/index.gz") = Except.ok res ∧ res.status ≠ 200) ∧
    ((∃ res, get (r ++ "/index.gz") = Except.ok res ∧ res.status ≠ 200) →
      (∃ res2, get (r ++ "/index") = Except.ok res2 ∧ res2.status ≠ 200) →
      ∃ e, (unmarshalRepoPackagesHTTP get r).result = Except.error e) := by
  unfold unmarshalRepoPackagesHTTP
  cases hgz : get (r ++ "/index.gz") with
  | error e =>
      dsimp only
      refine ⟨rfl, ?_, ?_⟩
      · constructor
        · intro hmem
          simp only [List.mem_singleton] at hmem
          exact absurd hmem (index_ne_index_gz r)
        · rintro ⟨res, hres, _⟩
          cases hres
      · rintro ⟨res, hres, _⟩ _
        cases hres
  | ok res =>
      dsimp only
      by_cases hst : res.status ≠ 200
      · rw [if_pos hst]
        cases hpl : get (r ++ "/index") with
        | error e =>
            dsimp only
            refine ⟨rfl, iff_of_true (by simp) ⟨res, rfl, hst⟩, ?_⟩
            rintro _ ⟨res2, hres2, _⟩
            cases hres2
        | ok res2 =>
            dsimp only
            by_cases hst2 : res2.status ≠ 200
            · rw [if_pos hst2]
              exact ⟨rfl, iff_of_true (by simp) ⟨res, rfl, hst⟩, fun _ _ => ⟨_, rfl⟩⟩
            · rw [if_neg hst2]
              refine ⟨rfl, iff_of_true (by simp) ⟨res, rfl, hst⟩, ?_⟩
              rintro _ ⟨res2', hres2, hs2⟩
              injection hres2 with he
              exact absurd (he ▸ hs2) hst2
      · rw [if_neg hst]
        refine ⟨rfl, ?_, ?_⟩
        · constructor
          · intro hmem
            simp only [List.mem_singleton] at hmem
            exact absurd hmem (index_ne_index_gz r)
          · rintro ⟨res', hres, hs⟩
            injection hres with he
            exact absurd (he ▸ hs) hst
        · rintro ⟨res', hres, hs⟩ _
          injection hres with he
          exact absurd (he ▸ hs) hst

/-- C6 witness: an oracle answering 404 everywhere drives the fetch into
the fallback and then into an error. -/
theorem unmarshalRepoPackagesHTTP_fallback_witness :
    ∃ e, (unmarshalRepoPackagesHTTP getEx "http://repo").result = Except.error e :=
  (unmarshalRepoPackagesHTTP_fallback getEx "http://repo").2.2
    ⟨⟨404, []⟩, rfl, by decide⟩ ⟨⟨404, []⟩, rfl, by decide⟩

theorem verifyTail_second_failure (env : VerifyEnv) (rd : Bool) (e : String)
    (hv2 : env.sysVerify2 = Except.error e)
    (hrun : (verifyTail env rd).ranSecondVerify = true) :
    verifyTail env rd = ⟨false, none, true⟩ := by
  unfold verifyTail at hrun ⊢
  revert hrun
  cases hev : env.extractVerify with
  | error e2 => intro hrun; cases hrun
  | ok _ =>
      cases hs1 : env.sysVerify1 with
      | ok _ => intro hrun; cases hrun
      | error e1 =>
          cases hdl : (if rd then env.downloadPackage else Except.ok ()) with
          | error e2 => intro hrun; cases hrun
          | ok _ =>
              cases hep : env.extractPkg with
              | error e2 => intro hrun; cases hrun
              | ok _ =>
                  intro _
                  dsimp only
                  rw [hv2]

/-- C9: when the verify script run that follows the full re-extraction of
the package fails, `RunVerifyCommand` reports `ok = false` with a nil
error instead of propagating the script failure. -/
theorem RunVerifyCommand_second_failure_not_fatal (env : VerifyEnv) (ps : PackageState)
    (proxyServer : String) (e : String)
    (hrun : (RunVerifyCommand env ps proxyServer).ranSecondVerify = true)
    (hv2 : env.sysVerify2 = Except.error e) :
    RunVerifyCommand env ps proxyServer = ⟨false, none, true⟩ := by
  unfold RunVerifyCommand at hrun ⊢
  by_cases hvp : ps.packageSpec.verify.path == ""
  · rw [if_pos hvp] at hrun
    cases hrun
  · rw [if_neg hvp] at hrun ⊢
    revert hrun
    cases ho : env.openLocal with
    | err e2 => intro hrun; cases hrun
    | ok =>
        dsimp only
        cases hf : verifyFetch env ps proxyServer (verifyRd (verifyRd0 OpenRes.ok) ps env.checksumLocal) with
        | error e2 => intro hrun; cases hrun
        | ok _ => exact fun hrun => verifyTail_second_failure env _ e hv2 hrun
    | notExist =>
        dsimp only
        cases hf : verifyFetch env ps proxyServer (verifyRd (verifyRd0 OpenRes.notExist) ps env.checksumLocal) with
        | error e2 => intro hrun; cases hrun
        | ok _ => exact fun hrun => verifyTail_second_failure env _ e hv2 hrun

/-- C9 witness: a present, intact local archive whose verify script fails
twice — after re-extraction the failure is reported as `(false, nil)`. -/
theorem RunVerifyCommand_second_failure_not_fatal_witness :
    RunVerifyCommand envEx psEx "" = ⟨false, none, true⟩ :=
  RunVerifyCommand_second_failure_not_fatal envEx psEx "" "exit status 1" (by decide) rfl

/-- C10: with a proxy server configured, a stale or absent cache and a
`gs://` repo URL, `unmarshalRepoPackages` returns the empty RepoSpec list
with a nil error — the repo is silently skipped. -/
theorem unmarshalRepoPackages_proxy_gcs_skip (cache : CacheStatus) (get : GetOracle)
    (g : GCSOracle) (p proxyServer : String)
    (hcache : cache = CacheStatus.stale ∨ cache = CacheStatus.absent)
    (hgcs : (SplitGCSUrl p).1 = true)
    (hproxy : proxyServer ≠ "") :
    unmarshalRepoPackages cache get g p proxyServer = Except.ok [] := by
  rcases hcache with rfl | rfl <;>
  · unfold unmarshalRepoPackages
    rw [if_pos hgcs]
    unfold unmarshalRepoPackagesGCS
    rw [if_pos hproxy]

/-- C10 witness: an absent cache, a configured proxy and the repo URL
`gs://bucket/repo`. -/
theorem unmarshalRepoPackages_proxy_gcs_skip_witness :
    unmarshalRepoPackages CacheStatus.absent getEx gEx "gs://bucket/repo" "http://proxy:3128" =
      Except.ok [] :=
  unmarshalRepoPackages_proxy_gcs_skip CacheStatus.absent getEx gEx "gs://bucket/repo"
    "http://proxy:3128" (Or.inr rfl) (by decide) (by decide)
